import Mathlib

/-!
# gorm-firebird: the Firebird dialect adapter (`firebird.go`)

A shallow embedding of the dialect rule set of `firebird.go` and the proofs of
its specification.

Conventions of the embedding
* a Go `string` is a Lean `String`; a writer / builder is the text written so
  far, and `WriteString` / `WriteByte` append to it;
* a Go `int` is an `Int` (no arithmetic is performed on sizes, limits or
  offsets, only comparisons and decimal rendering);
* a Go pointer that may be `nil` is an `Option`; dereferencing `nil` is the
  runtime failure `Panic.nilPointerDereference`;
* a Go `map[string]T` is an association list read with `List.lookup`
  (a missing key reads as the zero value, also on a `nil` map).
-/

namespace Firebird

/-! ## Host and standard-library vocabulary used by the adapter -/

/-- Runtime failure of the Go program (a panic), as opposed to a returned `error`. -/
inductive Panic where
  | nilPointerDereference
  deriving DecidableEq, Repr

deriving instance DecidableEq for Except

/-- The host type `schema.DataType` is a Go string type; these are the host's constants. -/
abbrev DataType := String

/-- Host constant `schema.Bool`. -/
def schemaBool : DataType := "bool"
/-- Host constant `schema.Int`. -/
def schemaInt : DataType := "int"
/-- Host constant `schema.Uint`. -/
def schemaUint : DataType := "uint"
/-- Host constant `schema.Float`. -/
def schemaFloat : DataType := "float"
/-- Host constant `schema.String`. -/
def schemaString : DataType := "string"
/-- Host constant `schema.Time`. -/
def schemaTime : DataType := "time"
/-- Host constant `schema.Bytes`. -/
def schemaBytes : DataType := "bytes"

/-- Go `strconv.Itoa` (and `fmt.Sprintf` with the verb `%d`): the decimal rendering
of a signed integer, with a leading minus sign for a negative one. -/
def Itoa (i : Int) : String :=
  match i with
  | Int.ofNat n => Nat.repr n
  | Int.negSucc n => "-" ++ Nat.repr (n + 1)

/-- Reading `m[k]` of a Go `map[string]string`: the zero value `""` when the
key is absent (also when the map is `nil`). -/
def mapGet (m : List (String × String)) (k : String) : String :=
  match m.lookup k with
  | some v => v
  | none => ""

/-- A connection pool handle (`gorm.ConnPool`), identified by a number. -/
structure ConnPool where
  id : Nat
  deriving DecidableEq, Repr

/-- A Go `error` value, identified by its message. -/
structure Error where
  msg : String
  deriving DecidableEq, Repr

/-- A bound value (`interface{}`) of a statement or expression. -/
inductive Value where
  | null
  | int (i : Int)
  | str (s : String)
  deriving DecidableEq, Repr

/-- Host type `clause.Limit`: `struct { Limit int; Offset int }`. -/
structure Limit where
  Limit : Int
  Offset : Int
  deriving DecidableEq, Repr

/-- Host type `clause.Expr`, the raw SQL expression. -/
structure Expr where
  SQL : String
  Vars : List Value
  WithoutParentheses : Bool
  deriving DecidableEq, Repr

/-- The dynamic type and value held by a `clause.Expression` interface: a
`clause.Limit`, a `clause.Expr`, or a value of any other type of the host
(named by its type, for instance `*clause.Limit` or `clause.Where`). -/
inductive Expression where
  | limit (l : Limit)
  | expr (e : Expr)
  | other (typeName : String)
  deriving DecidableEq, Repr

/-- The part of `clause.Clause` that the adapter reads; the interface field
`Expression` may be `nil`. -/
structure Clause where
  Name : String
  Expression : Option Expression
  deriving DecidableEq, Repr

/-- A `clause.Builder` / `clause.Writer` is modelled by the text written to it
so far. -/
abbrev Builder := String

/-- Method `WriteString` of a builder or writer. -/
def Builder.WriteString (builder : Builder) (s : String) : Builder := builder ++ s

/-- Method `WriteByte` of a builder or writer. -/
def Builder.WriteByte (builder : Builder) (c : Char) : Builder := builder.push c

/-- Host type `clause.ClauseBuilder`: `func(Clause, Builder)`, as the effect on the
builder. -/
abbrev ClauseBuilder := Clause → Builder → Builder

/-- Assignment `m[k] = v` on a Go map: the entry under `k` is replaced or
created, every other entry is kept. -/
def mapSet {V : Type} (m : List (String × V)) (k : String) (v : V) : List (String × V) :=
  (k, v) :: m.filter (fun kv => kv.1 != k)

/-- Go `strings.Contains(s, ".")`. -/
def containsDot (s : String) : Bool := s.data.contains '.'

/-- Splitting a list of characters at every `.`; an input without a dot is
returned as one segment, the empty input as one empty segment. -/
def splitDotChars : List Char → List (List Char)
  | [] => [[]]
  | c :: cs =>
    if c = '.' then
      [] :: splitDotChars cs
    else
      match splitDotChars cs with
      | [] => [[c]]
      | seg :: rest => (c :: seg) :: rest

/-- Go `strings.Split(s, ".")`. -/
def splitDot (s : String) : List String := (splitDotChars s.data).map String.mk

/-- The part of `*gorm.DB` that `Initialize` writes: the connection pool
(an interface value, `nil` when unset), the callbacks registered on the handle,
and the registry of clause builders, which the host allocates before it calls
`Initialize`. -/
structure DB where
  ConnPool : Option ConnPool
  Callbacks : List String
  ClauseBuilders : List (String × ClauseBuilder)

/-- The functions of the host and of the standard library that `Initialize`
calls: `callbacks.RegisterDefaultCallbacks`, which only changes the callbacks
of the handle, and `sql.Open(driverName, dataSourceName)`, which returns a pool
(a `nil` pointer on failure) and an error (`nil` on success). -/
structure Host where
  RegisterDefaultCallbacks : List String → List String
  sqlOpen : String → String → Option ConnPool × Option Error

/-- The part of `schema.Field` that the adapter reads. -/
structure Field where
  DataType : DataType
  Size : Int
  PrimaryKey : Bool
  AutoIncrement : Bool
  TagSettings : List (String × String)
  deriving DecidableEq, Repr

/-! ## The adapter -/

/-- Source: `type Config struct`. -/
structure Config where
  DriverName : String
  DSN : String
  DefaultStringSize : Int
  Conn : Option ConnPool
  deriving DecidableEq, Repr

/-- Source: `type Dialector struct { *Config }`: the embedded pointer may be `nil`. -/
structure Dialector where
  Config : Option Config
  deriving DecidableEq, Repr

/-- Dereference of the embedded `*Config` of a dialector. -/
def Dialector.deref (dialector : Dialector) : Except Panic Firebird.Config :=
  match dialector.Config with
  | some c => .ok c
  | none => .error .nilPointerDereference

/-- Source: `func (dialector Dialector) Name() string`. -/
def Dialector.Name (_dialector : Dialector) : String := "firebird"

/-- Source: `func Open(dsn string) gorm.Dialector`. -/
def Open (dsn : String) : Dialector :=
  { Config := some { DriverName := "", DSN := dsn, DefaultStringSize := 0, Conn := none } }

/-- Source: `func New(config Config) gorm.Dialector`. -/
def New (config : Config) : Dialector :=
  { Config := some config }

/-- Source: `func (dialector Dialector) DataTypeOf(field *schema.Field) string`. -/
def Dialector.DataTypeOf (dialector : Dialector) (field : Field) : Except Panic String :=
  if field.DataType = schemaBool then
    .ok "char"
  else if field.DataType = schemaInt ∨ field.DataType = schemaUint then
    let sqlType : String :=
      if field.Size < 16 then "smallint"
      else if field.Size < 31 then "integer"
      else "bigint"
    if field.AutoIncrement then
      .ok (sqlType ++ " IDENTITY(1,1)")
    else
      .ok sqlType
  else if field.DataType = schemaFloat then
    .ok "decimal"
  else if field.DataType = schemaString then do
    let mut size := field.Size
    let hasIndex : Bool :=
      mapGet field.TagSettings "INDEX" != "" || mapGet field.TagSettings "UNIQUE" != ""
    if (field.PrimaryKey || hasIndex) && size == 0 then
      let config ← dialector.deref
      if config.DefaultStringSize > 0 then
        size := config.DefaultStringSize
      else
        size := 256
    if size > 0 && size <= 4000 then
      return "varchar(" ++ Itoa size ++ ")"
    return "varchar(MAX)"
  else if field.DataType = schemaTime then
    .ok "datetime"
  else if field.DataType = schemaBytes then
    .ok "varbinary(MAX)"
  else
    .ok "varchar"

/-- The function literal stored under `"LIMIT"` by `ClauseBuilders`. -/
def limitClauseBuilder : ClauseBuilder := fun c builder =>
  match c.Expression with
  | some (.limit limit) =>
    let builder := builder.WriteString "ROWS "
    let builder := builder.WriteString (Itoa limit.Limit)
    if limit.Offset > 0 then
      let builder := builder.WriteString " TO "
      builder.WriteString (Itoa limit.Offset)
    else
      builder
  | _ => builder

/-- Source: `func (dialector Dialector) ClauseBuilders() map[string]clause.ClauseBuilder`. -/
def Dialector.ClauseBuilders (_dialector : Dialector) : List (String × ClauseBuilder) :=
  [("LIMIT", limitClauseBuilder)]

/-- Source: `func (dialector Dialector) DefaultValueOf(field *schema.Field) clause.Expression`. -/
def Dialector.DefaultValueOf (_dialector : Dialector) (_field : Field) : Expression :=
  .expr { SQL := "NULL", Vars := [], WithoutParentheses := false }

/-- The loop `for idx, str := range strings.Split(str, ".")` of `QuoteTo`. -/
def quoteSegments (writer : Builder) (idx : Nat) : List String → Builder
  | [] => writer
  | str :: rest =>
    let writer := if idx > 0 then writer.WriteString ".\"" else writer
    let writer := writer.WriteString str
    let writer := writer.WriteByte '"'
    quoteSegments writer (idx + 1) rest

/-- Source: `func (dialector Dialector) QuoteTo(writer clause.Writer, str string)`. -/
def Dialector.QuoteTo (_dialector : Dialector) (writer : Builder) (str : String) : Builder :=
  let writer := writer.WriteByte '"'
  if containsDot str then
    quoteSegments writer 0 (splitDot str)
  else
    let writer := writer.WriteString str
    writer.WriteByte '"'

/-- Source: `func (dialector Dialector) BindVarTo(writer clause.Writer, stmt *gorm.Statement, v interface{})`;
of the statement only the values bound so far are modelled. -/
def Dialector.BindVarTo (_dialector : Dialector) (writer : Builder) (_stmtVars : List Value)
    (_v : Value) : Builder :=
  writer.WriteByte '?'

/-- What a call of `Initialize` that returns leaves behind: the configuration
behind the dialector's `*Config` pointer, the host handle, the calls of
`sql.Open` made (driver name and data-source string, in order), and the
returned `error`. -/
structure InitResult where
  config : Config
  db : DB
  opened : List (String × String)
  err : Option Error

/-- The loop `for k, v := range dialector.ClauseBuilders() { db.ClauseBuilders[k] = v }`. -/
def installClauseBuilders (db : DB) (builders : List (String × ClauseBuilder)) : DB :=
  builders.foldl (fun db kv => { db with ClauseBuilders := mapSet db.ClauseBuilders kv.1 kv.2 }) db

/-- Source: `func (dialector Dialector) Initialize(db *gorm.DB) (err error)`. The
receiver is a copy of the dialector, but `DriverName` is a field of the shared
`*Config`, so the assignment to it writes the configuration itself. -/
def Dialector.Initialize (host : Host) (dialector : Dialector) (db : DB) :
    Except Panic InitResult :=
  let db : DB := { db with Callbacks := host.RegisterDefaultCallbacks db.Callbacks }
  match dialector.Config with
  | none => .error .nilPointerDereference
  | some config =>
    let config : Firebird.Config :=
      if config.DriverName = "" then { config with DriverName := "firebirdsql" } else config
    match config.Conn with
    | some conn =>
      let db : DB := { db with ConnPool := some conn }
      .ok { config := config, db := installClauseBuilders db dialector.ClauseBuilders,
            opened := [], err := none }
    | none =>
      let res := host.sqlOpen config.DriverName config.DSN
      let db : DB := { db with ConnPool := res.1 }
      match res.2 with
      | some err =>
        .ok { config := config, db := db, opened := [(config.DriverName, config.DSN)],
              err := some err }
      | none =>
        .ok { config := config, db := installClauseBuilders db dialector.ClauseBuilders,
              opened := [(config.DriverName, config.DSN)], err := none }

/-- Host type `migrator.Config`:
`struct { CreateIndexAfterCreateTable bool; DB *gorm.DB; gorm.Dialector }`. -/
structure MigratorConfig where
  CreateIndexAfterCreateTable : Bool
  DB : DB
  Dialector : Dialector

/-- Host type `migrator.Migrator`, the generic migrator: `struct { Config }`. -/
structure GenericMigrator where
  Config : MigratorConfig

/-- Modelled from the spec: the type `Migrator` of this package, whose
declaration is not in `firebird.go`. The composite literal in
`Dialector.Migrator` shows its embedded field `Migrator` of the host type
`migrator.Migrator`; by the spec it is the generic migrator held by
composition, with no behaviour of its own. -/
structure Migrator where
  Migrator : GenericMigrator

/-- Source: `func (dialector Dialector) Migrator(db *gorm.DB) gorm.Migrator`. -/
def Dialector.Migrator (dialector : Dialector) (db : DB) : Migrator :=
  { Migrator :=
      { Config :=
          { DB := db
            Dialector := dialector
            CreateIndexAfterCreateTable := true } } }

/-! ## Specification-side definitions -/

/-- The spec's "has-index" flag: a non-empty `INDEX` or `UNIQUE` tag setting. -/
def hasIndexSpec (field : Field) : Prop :=
  mapGet field.TagSettings "INDEX" ≠ "" ∨ mapGet field.TagSettings "UNIQUE" ≠ ""

instance (field : Field) : Decidable (hasIndexSpec field) := by
  unfold hasIndexSpec; infer_instance

/-- The spec's effective size of a string column: the declared size, except
that a declared size 0 on a primary-key or indexed column becomes the
configured default string size if that is positive, and 256 otherwise. -/
def effectiveSizeSpec (field : Field) (defaultStringSize : Int) : Int :=
  if field.Size = 0 ∧ (field.PrimaryKey = true ∨ hasIndexSpec field) then
    if defaultStringSize > 0 then defaultStringSize else 256
  else
    field.Size

/-- The spec's rendering of an effective size: `varchar(<size>)` in the range
`(0, 4000]`, and `varchar(MAX)` in every other case. -/
def varcharSpec (size : Int) : String :=
  if 0 < size ∧ size ≤ 4000 then "varchar(" ++ Itoa size ++ ")" else "varchar(MAX)"

/-- The spec's base type of an integer column of declared size `s`. -/
def intBaseSpec (s : Int) : String :=
  if s < 16 then "smallint"
  else if 16 ≤ s ∧ s < 31 then "integer"
  else "bigint"

/-- The spec's type of an integer column: the base type, followed by
`" IDENTITY(1,1)"` when the auto-increment flag is on. -/
def intTypeSpec (s : Int) (autoIncrement : Bool) : String :=
  if autoIncrement then intBaseSpec s ++ " IDENTITY(1,1)" else intBaseSpec s

/-- The spec's quoting of one segment: the segment between double quotes, its
characters copied as they are. -/
def quoteSegmentSpec (seg : String) : String := "\"" ++ seg ++ "\""

/-- The spec's quoted identifier: split at every `.`, each segment quoted on
its own, the quoted segments joined with `.`. -/
def quoteSpec (s : String) : String :=
  ".".intercalate ((splitDot s).map quoteSegmentSpec)

/-- The spec's driver name: the configured one, `"firebirdsql"` when that is
empty. -/
def driverNameSpec (config : Config) : String :=
  if config.DriverName = "" then "firebirdsql" else config.DriverName

/-- A host whose `sql.Open` succeeds with pool number 1, for concrete runs. -/
def openingHost : Host :=
  { RegisterDefaultCallbacks := fun cbs => "gorm:query" :: cbs
    sqlOpen := fun _ _ => (some ⟨1⟩, none) }

/-- A fresh host handle: no pool, no callbacks, an allocated empty registry. -/
def freshDB : DB := { ConnPool := none, Callbacks := [], ClauseBuilders := [] }

/-- Successive calls of `BindVarTo` on one writer, one per bound value, each
with the values the statement had bound at that point. -/
def bindVarsTo (dialector : Dialector) (writer : Builder)
    (calls : List (List Value × Value)) : Builder :=
  calls.foldl (fun w call => dialector.BindVarTo w call.1 call.2) writer

/-- A `ROWS` clause of Firebird: `ROWS a` or `ROWS a TO b`. -/
inductive RowsClause where
  | rows (a : Int)
  | rowsTo (a b : Int)
  deriving DecidableEq, Repr

/-- The SQL text of a `ROWS` clause. -/
def RowsClause.text : RowsClause → String
  | .rows a => "ROWS " ++ Itoa a
  | .rowsTo a b => "ROWS " ++ Itoa a ++ " TO " ++ Itoa b

/-- Firebird's meaning of a `ROWS` clause on the rows of a result, numbered
from 1: `ROWS a` returns the first `a` rows, `ROWS a TO b` returns the rows
numbered `a` through `b` inclusive. -/
def RowsClause.select {α : Type} (table : List α) : RowsClause → List α
  | .rows a => table.take a.toNat
  | .rowsTo a b =>
    ((table.enumFrom 1).filter (fun ir => a ≤ (ir.1 : Int) ∧ (ir.1 : Int) ≤ b)).map Prod.snd

/-- What the host's limit/offset pair asks for: skip the first `offset` rows,
then return at most `limit` rows. -/
def limitOffsetSpec {α : Type} (table : List α) (limit offset : Int) : List α :=
  (table.drop offset.toNat).take limit.toNat

/-- The decimal value of a list of digit characters. -/
def decimalValue (l : List Char) : Nat :=
  l.foldl (fun acc c => 10 * acc + (c.toNat - 48)) 0

/-! ## Type mapper -/

/-- The string branch of `DataTypeOf` computes the spec's rendering of the
spec's effective size. -/
theorem DataTypeOf_string (config : Config) (field : Field)
    (hString : field.DataType = schemaString) :
    (New config).DataTypeOf field
      = .ok (varcharSpec (effectiveSizeSpec field config.DefaultStringSize)) := by
  obtain ⟨dt, size, pk, ai, ts⟩ := field
  simp only at hString
  subst hString
  have e1 : ¬ schemaString = schemaBool := by decide
  have e2 : ¬ (schemaString = schemaInt ∨ schemaString = schemaUint) := by decide
  have e3 : ¬ schemaString = schemaFloat := by decide
  simp only [Dialector.DataTypeOf, New, Dialector.deref, varcharSpec, effectiveSizeSpec,
    hasIndexSpec, if_neg e1, if_neg e2, if_neg e3, if_true]
  by_cases h0 : size = 0
  · subst h0
    by_cases hpk : pk = true <;>
    by_cases hi : mapGet ts "INDEX" = "" <;>
    by_cases hu : mapGet ts "UNIQUE" = "" <;>
    by_cases hd : config.DefaultStringSize > 0 <;>
    by_cases hd2 : config.DefaultStringSize ≤ 4000 <;>
    simp [hpk, hi, hu, hd, hd2, bind, Except.bind, pure, Except.pure]
  · by_cases hd : size > 0 <;>
    by_cases hd2 : size ≤ 4000 <;>
    simp [h0, hd, hd2, bind, Except.bind, pure, Except.pure]

/-- C1: for a string column and any configured default string size, `DataTypeOf`
returns the rendering of the effective size (declared size, or the configured
default / 256 for a primary-key or indexed column of declared size 0):
`varchar(<size>)` when `0 < size <= 4000` and `varchar(MAX)` otherwise. In
particular size 0 without primary-key/index gives `varchar(MAX)` whatever the
default, size 4000 gives `varchar(4000)` and size 5000 gives `varchar(MAX)`. -/
theorem C1_string_varchar (config : Config) (field : Field)
    (hString : field.DataType = schemaString) :
    (New config).DataTypeOf field
        = .ok (varcharSpec (effectiveSizeSpec field config.DefaultStringSize))
    ∧ (field.Size = 0 → field.PrimaryKey = false → ¬ hasIndexSpec field →
        (New config).DataTypeOf field = .ok "varchar(MAX)")
    ∧ (field.Size = 4000 → (New config).DataTypeOf field = .ok "varchar(4000)")
    ∧ (field.Size = 5000 → (New config).DataTypeOf field = .ok "varchar(MAX)") := by
  have key := DataTypeOf_string config field hString
  refine ⟨key, ?_, ?_, ?_⟩
  · intro h0 hpk hidx
    rw [key]
    simp [effectiveSizeSpec, varcharSpec, h0, hpk, hidx]
  · intro h
    rw [key]
    have e : effectiveSizeSpec field config.DefaultStringSize = 4000 := by
      simp [effectiveSizeSpec, h]
    rw [e]
    decide
  · intro h
    rw [key]
    have e : effectiveSizeSpec field config.DefaultStringSize = 5000 := by
      simp [effectiveSizeSpec, h]
    rw [e]
    decide

/-- C1 at a concrete column: a primary-key string column of declared size 0
under a configured default of 50 is a `varchar(50)`. -/
theorem C1_string_varchar_witness :
    (New ⟨"", "db.fdb", 50, none⟩).DataTypeOf ⟨schemaString, 0, true, false, []⟩
      = .ok "varchar(50)" :=
  (C1_string_varchar ⟨"", "db.fdb", 50, none⟩ ⟨schemaString, 0, true, false, []⟩ rfl).1

/-- C2: for an integer or unsigned-integer column of declared size `s`, under
any dialector, `DataTypeOf` returns `smallint` (`s < 16`), `integer`
(`16 <= s < 31`) or `bigint` (`s >= 31`) when auto-increment is off, and that
base type followed once by `" IDENTITY(1,1)"` when it is on; the result is a
function of the size and the auto-increment flag alone. -/
theorem C2_integer_types (dialector : Dialector) (field : Field)
    (hInt : field.DataType = schemaInt ∨ field.DataType = schemaUint) :
    dialector.DataTypeOf field = .ok (intTypeSpec field.Size field.AutoIncrement)
    ∧ (field.AutoIncrement = false →
        (field.Size < 16 → dialector.DataTypeOf field = .ok "smallint")
        ∧ (16 ≤ field.Size → field.Size < 31 → dialector.DataTypeOf field = .ok "integer")
        ∧ (31 ≤ field.Size → dialector.DataTypeOf field = .ok "bigint"))
    ∧ (field.AutoIncrement = true →
        (field.Size < 16 → dialector.DataTypeOf field = .ok "smallint IDENTITY(1,1)")
        ∧ (16 ≤ field.Size → field.Size < 31 →
            dialector.DataTypeOf field = .ok "integer IDENTITY(1,1)")
        ∧ (31 ≤ field.Size → dialector.DataTypeOf field = .ok "bigint IDENTITY(1,1)")) := by
  have key : dialector.DataTypeOf field = .ok (intTypeSpec field.Size field.AutoIncrement) := by
    obtain ⟨dt, size, pk, ai, ts⟩ := field
    simp only at hInt
    have e1 : ¬ dt = schemaBool := by
      rcases hInt with h | h <;> · rw [h]; decide
    simp only [Dialector.DataTypeOf, if_neg e1, if_pos hInt, intTypeSpec, intBaseSpec]
    by_cases h16 : size < 16
    · cases ai <;> simp [h16]
    · have h16' : 16 ≤ size := not_lt.mp h16
      by_cases h31 : size < 31 <;> cases ai <;> simp [h16, h16', h31]
  refine ⟨key, ?_, ?_⟩
  · intro hai
    rw [key, hai]
    refine ⟨fun h => ?_, fun h16 h31 => ?_, fun h => ?_⟩
    · simp [intTypeSpec, intBaseSpec, h]
    · simp [intTypeSpec, intBaseSpec, h16, h31, not_lt.mpr h16]
    · have h1 : ¬ field.Size < 16 := by omega
      have h2 : ¬ field.Size < 31 := by omega
      simp [intTypeSpec, intBaseSpec, h1, h2]
  · intro hai
    rw [key, hai]
    refine ⟨fun h => ?_, fun h16 h31 => ?_, fun h => ?_⟩
    · simp only [intTypeSpec, intBaseSpec, if_pos h, if_true]
      decide
    · simp only [intTypeSpec, intBaseSpec, if_neg (not_lt.mpr h16), if_pos (And.intro h16 h31),
        if_true]
      decide
    · have h1 : ¬ field.Size < 16 := by omega
      have h2 : ¬ (16 ≤ field.Size ∧ field.Size < 31) := by omega
      simp only [intTypeSpec, intBaseSpec, if_neg h1, if_neg h2, if_true]
      decide

/-- C2 at a concrete column: an auto-incremented unsigned column of size 32,
under a dialector without configuration, is a `bigint IDENTITY(1,1)`. -/
theorem C2_integer_types_witness :
    (Dialector.mk none).DataTypeOf ⟨schemaUint, 32, true, true, [("INDEX", "idx")]⟩
      = .ok "bigint IDENTITY(1,1)" :=
  (C2_integer_types (Dialector.mk none) ⟨schemaUint, 32, true, true, [("INDEX", "idx")]⟩
    (Or.inr rfl)).1

/-- C5: whatever the size, flags, tag settings and configuration, `DataTypeOf`
returns `char` for boolean, `decimal` for float, `datetime` for time,
`varbinary(MAX)` for bytes, and `varchar` for a logical type that is none of
boolean, integer, unsigned-integer, float, string, time or bytes. -/
theorem C5_fixed_types (dialector : Dialector) (field : Field) :
    (field.DataType = schemaBool → dialector.DataTypeOf field = .ok "char")
    ∧ (field.DataType = schemaFloat → dialector.DataTypeOf field = .ok "decimal")
    ∧ (field.DataType = schemaTime → dialector.DataTypeOf field = .ok "datetime")
    ∧ (field.DataType = schemaBytes → dialector.DataTypeOf field = .ok "varbinary(MAX)")
    ∧ (field.DataType ≠ schemaBool → field.DataType ≠ schemaInt →
        field.DataType ≠ schemaUint → field.DataType ≠ schemaFloat →
        field.DataType ≠ schemaString → field.DataType ≠ schemaTime →
        field.DataType ≠ schemaBytes → dialector.DataTypeOf field = .ok "varchar") := by
  obtain ⟨dt, size, pk, ai, ts⟩ := field
  refine ⟨?_, ?_, ?_, ?_, ?_⟩
  · intro h
    simp only at h
    subst h
    simp [Dialector.DataTypeOf]
  · intro h
    simp only at h
    subst h
    have e1 : ¬ schemaFloat = schemaBool := by decide
    have e2 : ¬ (schemaFloat = schemaInt ∨ schemaFloat = schemaUint) := by decide
    simp only [Dialector.DataTypeOf, if_neg e1, if_neg e2, if_true]
  · intro h
    simp only at h
    subst h
    have e1 : ¬ schemaTime = schemaBool := by decide
    have e2 : ¬ (schemaTime = schemaInt ∨ schemaTime = schemaUint) := by decide
    have e3 : ¬ schemaTime = schemaFloat := by decide
    have e4 : ¬ schemaTime = schemaString := by decide
    simp only [Dialector.DataTypeOf, if_neg e1, if_neg e2, if_neg e3, if_neg e4, if_true]
  · intro h
    simp only at h
    subst h
    have e1 : ¬ schemaBytes = schemaBool := by decide
    have e2 : ¬ (schemaBytes = schemaInt ∨ schemaBytes = schemaUint) := by decide
    have e3 : ¬ schemaBytes = schemaFloat := by decide
    have e4 : ¬ schemaBytes = schemaString := by decide
    have e5 : ¬ schemaBytes = schemaTime := by decide
    simp only [Dialector.DataTypeOf, if_neg e1, if_neg e2, if_neg e3, if_neg e4, if_neg e5,
      if_true]
  · intro h1 h2 h3 h4 h5 h6 h7
    simp only [ne_eq] at h1 h2 h3 h4 h5 h6 h7
    have e2 : ¬ (dt = schemaInt ∨ dt = schemaUint) := by
      rintro (h | h)
      · exact h2 h
      · exact h3 h
    simp only [Dialector.DataTypeOf, if_neg h1, if_neg e2, if_neg h4, if_neg h5, if_neg h6,
      if_neg h7]

/-! ## Pagination clause -/

/-- C3: the renderer registered under `"LIMIT"` appends to the builder exactly
`ROWS <count>` when the offset is `<= 0` and `ROWS <count> TO <offset>` when
the offset is `> 0`; `(10, 0)` gives `ROWS 10` and `(10, 20)` gives
`ROWS 10 TO 20`. -/
theorem C3_limit_rows (dialector : Dialector) :
    ∃ render : ClauseBuilder, dialector.ClauseBuilders.lookup "LIMIT" = some render
      ∧ ∀ (name : String) (builder : Builder),
        (∀ count offset : Int, offset ≤ 0 →
          render ⟨name, some (.limit ⟨count, offset⟩)⟩ builder
            = builder ++ ("ROWS " ++ Itoa count))
        ∧ (∀ count offset : Int, offset > 0 →
          render ⟨name, some (.limit ⟨count, offset⟩)⟩ builder
            = builder ++ ("ROWS " ++ Itoa count ++ " TO " ++ Itoa offset))
        ∧ render ⟨name, some (.limit ⟨10, 0⟩)⟩ builder = builder ++ "ROWS 10"
        ∧ render ⟨name, some (.limit ⟨10, 20⟩)⟩ builder = builder ++ "ROWS 10 TO 20" := by
  refine ⟨limitClauseBuilder, rfl, fun name builder => ⟨?_, ?_, ?_, ?_⟩⟩
  · intro count offset h
    have h' : ¬ offset > 0 := not_lt.mpr h
    simp only [limitClauseBuilder, Builder.WriteString, if_neg h', String.append_assoc]
  · intro count offset h
    simp only [limitClauseBuilder, Builder.WriteString, if_pos h, String.append_assoc]
  · have e : ("ROWS 10" : String) = "ROWS " ++ Itoa 10 := by decide
    have h' : ¬ (0 : Int) > 0 := by decide
    simp only [limitClauseBuilder, Builder.WriteString, if_neg h', String.append_assoc, e]
  · have e : ("ROWS 10 TO 20" : String) = "ROWS " ++ (Itoa 10 ++ (" TO " ++ Itoa 20)) := by
      decide
    have h' : (20 : Int) > 0 := by decide
    simp only [limitClauseBuilder, Builder.WriteString, if_pos h', String.append_assoc, e]

/-- C6: for a clause whose expression is not a `Limit` value (another type, or
no expression at all), the renderer registered under `"LIMIT"` leaves the
builder's content as it was. -/
theorem C6_limit_other_expression (dialector : Dialector) :
    ∃ render : ClauseBuilder, dialector.ClauseBuilders.lookup "LIMIT" = some render
      ∧ ∀ (c : Clause) (builder : Builder),
        (∀ l : Limit, c.Expression ≠ some (.limit l)) → render c builder = builder := by
  refine ⟨limitClauseBuilder, rfl, ?_⟩
  intro c builder h
  obtain ⟨name, e⟩ := c
  cases e with
  | none => rfl
  | some e =>
    cases e with
    | limit l => exact absurd rfl (h l)
    | expr e => rfl
    | other t => rfl

/-! ## Identifier quoting -/

/-- Splitting never returns an empty list of segments. -/
theorem splitDotChars_ne_nil (l : List Char) : splitDotChars l ≠ [] := by
  cases l with
  | nil => simp [splitDotChars]
  | cons c cs =>
    unfold splitDotChars
    split
    · simp
    · split <;> simp

/-- An input without a dot is its own single segment. -/
theorem splitDotChars_of_not_mem (l : List Char) (h : '.' ∉ l) : splitDotChars l = [l] := by
  induction l with
  | nil => rfl
  | cons c cs ih =>
    have hc : ¬ c = '.' := fun e => h (by simp [e])
    have hcs : '.' ∉ cs := fun m => h (List.mem_cons_of_mem _ m)
    simp [splitDotChars, hc, ih hcs]

/-- No segment of a split contains a dot. -/
theorem splitDotChars_no_dot (l : List Char) : ∀ seg ∈ splitDotChars l, '.' ∉ seg := by
  induction l with
  | nil => simp [splitDotChars]
  | cons c cs ih =>
    unfold splitDotChars
    split
    · intro seg hseg
      rcases List.mem_cons.mp hseg with h | h
      · simp [h]
      · exact ih seg h
    · rename_i hc
      split
      · rename_i hnil
        exact absurd hnil (splitDotChars_ne_nil cs)
      · rename_i seg0 rest hsplit
        intro seg hseg
        rw [hsplit] at ih
        rcases List.mem_cons.mp hseg with h | h
        · subst h
          intro hm
          rcases List.mem_cons.mp hm with h1 | h1
          · exact hc h1.symm
          · exact ih seg0 (List.mem_cons_self _ _) h1
        · exact ih seg (List.mem_cons_of_mem _ h)

/-- The accumulator of `String.intercalate` can be extended on the left. -/
theorem intercalate_go_append (w a sep : String) (l : List String) :
    String.intercalate.go (w ++ a) sep l = w ++ String.intercalate.go a sep l := by
  induction l generalizing a with
  | nil => rfl
  | cons b bs ih =>
    simp only [String.intercalate.go]
    rw [String.append_assoc, String.append_assoc, ih, String.append_assoc]

/-- Joining the segments of a split with `.` gives the input back. -/
theorem intercalate_splitDot (s : String) : ".".intercalate (splitDot s) = s := by
  obtain ⟨l⟩ := s
  induction l with
  | nil => rfl
  | cons c cs ih =>
    simp only [splitDot] at ih ⊢
    unfold splitDotChars
    split
    · rename_i hc
      subst hc
      cases hsplit : splitDotChars cs with
      | nil => exact absurd hsplit (splitDotChars_ne_nil cs)
      | cons seg rest =>
        rw [hsplit] at ih
        simp only [List.map_cons, String.intercalate, String.intercalate.go] at ih ⊢
        have e : ("" ++ "." ++ String.mk seg : String) = "." ++ String.mk seg := rfl
        rw [e, intercalate_go_append, ih]
        rfl
    · cases hsplit : splitDotChars cs with
      | nil => exact absurd hsplit (splitDotChars_ne_nil cs)
      | cons seg rest =>
        rw [hsplit] at ih
        simp only [List.map_cons, String.intercalate] at ih ⊢
        have e : String.mk (c :: seg) = String.singleton c ++ String.mk seg := rfl
        rw [e, intercalate_go_append, ih]
        rfl

/-- The loop of `QuoteTo`, past its first iteration, continues a join with `.`
of the quoted segments. -/
theorem quoteSegments_succ (writer : Builder) (idx : Nat) (segs : List String) :
    quoteSegments writer (idx + 1) segs
      = String.intercalate.go writer "." (segs.map quoteSegmentSpec) := by
  induction segs generalizing writer idx with
  | nil => rfl
  | cons seg rest ih =>
    simp only [quoteSegments, List.map_cons, String.intercalate.go, if_pos (Nat.succ_pos idx)]
    rw [ih]
    congr 1
    apply String.ext
    simp [Builder.WriteString, Builder.WriteByte, quoteSegmentSpec]

/-- The loop of `QuoteTo` from its first iteration writes the quoted segments
joined with `.`, after the opening quote already written. -/
theorem quoteSegments_zero (writer : Builder) (segs : List String) (h : segs ≠ []) :
    quoteSegments (writer.WriteByte '"') 0 segs
      = writer ++ ".".intercalate (segs.map quoteSegmentSpec) := by
  cases segs with
  | nil => exact absurd rfl h
  | cons seg rest =>
    simp only [quoteSegments, List.map_cons, String.intercalate, if_neg (Nat.lt_irrefl 0)]
    rw [quoteSegments_succ, ← intercalate_go_append]
    congr 1
    apply String.ext
    simp [Builder.WriteString, Builder.WriteByte, quoteSegmentSpec]

/-- The method `QuoteTo` appends the spec's quoted identifier to what is already written. -/
theorem QuoteTo_eq_quoteSpec (dialector : Dialector) (writer : Builder) (s : String) :
    dialector.QuoteTo writer s = writer ++ quoteSpec s := by
  unfold Dialector.QuoteTo quoteSpec
  by_cases hdot : containsDot s = true
  · simp only [hdot, if_true]
    apply quoteSegments_zero
    simp [splitDot, splitDotChars_ne_nil]
  · have hmem : '.' ∉ s.data := by
      intro hm
      apply hdot
      simp [containsDot, hm]
    have hsplit : splitDot s = [s] := by
      simp [splitDot, splitDotChars_of_not_mem s.data hmem]
    simp only [hdot, hsplit, List.map_cons, List.map_nil, String.intercalate,
      String.intercalate.go]
    apply String.ext
    simp [Builder.WriteString, Builder.WriteByte, quoteSegmentSpec]

/-- C4: `QuoteTo` appends to the writer, after what is already written, the
identifier split at every `.` (the segments are free of dots and join back to
the identifier), each segment between double quotes, the quoted segments joined
with `.`. A plain identifier `x` gives `"x"`, `table.column` gives
`"table"."column"`, and an embedded double quote is copied as it is. -/
theorem C4_quote_segments (dialector : Dialector) (writer : Builder) (s : String) :
    dialector.QuoteTo writer s
        = writer ++ ".".intercalate ((splitDot s).map fun seg => "\"" ++ seg ++ "\"")
    ∧ ".".intercalate (splitDot s) = s
    ∧ (∀ seg ∈ splitDot s, containsDot seg = false)
    ∧ (containsDot s = false → dialector.QuoteTo writer s = writer ++ ("\"" ++ s ++ "\""))
    ∧ dialector.QuoteTo writer "x" = writer ++ "\"x\""
    ∧ dialector.QuoteTo writer "table.column" = writer ++ "\"table\".\"column\""
    ∧ dialector.QuoteTo writer "a\"b.c" = writer ++ "\"a\"b\".\"c\"" := by
  have key := QuoteTo_eq_quoteSpec dialector writer
  refine ⟨key s, intercalate_splitDot s, ?_, ?_, ?_, ?_, ?_⟩
  · intro seg hseg
    simp only [splitDot, List.mem_map] at hseg
    obtain ⟨l, hl, rfl⟩ := hseg
    have := splitDotChars_no_dot s.data l hl
    simp [containsDot, this]
  · intro hdot
    have hmem : '.' ∉ s.data := by
      intro hm
      simp [containsDot, hm] at hdot
    have hsplit : splitDot s = [s] := by
      simp [splitDot, splitDotChars_of_not_mem s.data hmem]
    rw [key, quoteSpec, hsplit]
    rfl
  · rw [key]
    have e : quoteSpec "x" = "\"x\"" := by decide
    rw [e]
  · rw [key]
    have e : quoteSpec "table.column" = "\"table\".\"column\"" := by decide
    rw [e]
  · rw [key]
    have e : quoteSpec "a\"b.c" = "\"a\"b\".\"c\"" := by decide
    rw [e]

/-! ## Initialization -/

/-- After `m[k] = v` the map holds `v` under `k`. -/
theorem lookup_mapSet_self {V : Type} (m : List (String × V)) (k : String) (v : V) :
    (mapSet m k v).lookup k = some v := by
  simp [mapSet]

/-- The assignment `m[k] = v` leaves the entry under every other key as it was. -/
theorem lookup_mapSet_ne {V : Type} (m : List (String × V)) (k k' : String) (v : V)
    (h : k' ≠ k) : (mapSet m k v).lookup k' = m.lookup k' := by
  have hbeq : (k' == k) = false := by simpa using h
  simp only [mapSet, List.lookup_cons, hbeq]
  induction m with
  | nil => rfl
  | cons kv rest ih =>
    obtain ⟨a, b⟩ := kv
    by_cases hak : a = k
    · subst hak
      simp [List.filter_cons, List.lookup_cons, hbeq, ih]
    · by_cases hka : k' = a
      · subst hka
        simp [List.filter_cons, hak]
      · have hb : (k' == a) = false := by simpa using hka
        simp [List.filter_cons, hak, List.lookup_cons, hb, ih]

/-- Installing the dialect's builders is the single assignment under `"LIMIT"`. -/
theorem installClauseBuilders_eq (dialector : Dialector) (db : DB) :
    installClauseBuilders db dialector.ClauseBuilders
      = { db with ClauseBuilders := mapSet db.ClauseBuilders "LIMIT" limitClauseBuilder } :=
  rfl

/-- The three ways `Initialize` returns for a dialector with a configuration. -/
theorem Initialize_New (host : Host) (config : Config) (db : DB) :
    (New config).Initialize host db = .ok
      (let db1 : DB := { db with Callbacks := host.RegisterDefaultCallbacks db.Callbacks }
       let config1 : Config := { config with DriverName := driverNameSpec config }
       match config.Conn with
       | some conn =>
         { config := config1
           db := { db1 with ConnPool := some conn,
                            ClauseBuilders := mapSet db.ClauseBuilders "LIMIT" limitClauseBuilder }
           opened := [], err := none }
       | none =>
         match (host.sqlOpen (driverNameSpec config) config.DSN).2 with
         | some err =>
           { config := config1
             db := { db1 with ConnPool := (host.sqlOpen (driverNameSpec config) config.DSN).1 }
             opened := [(driverNameSpec config, config.DSN)], err := some err }
         | none =>
           { config := config1
             db := { db1 with ConnPool := (host.sqlOpen (driverNameSpec config) config.DSN).1,
                              ClauseBuilders :=
                                mapSet db.ClauseBuilders "LIMIT" limitClauseBuilder }
             opened := [(driverNameSpec config, config.DSN)], err := none }) := by
  obtain ⟨drv, dsn, size, conn⟩ := config
  by_cases hdrv : drv = ""
  · subst hdrv
    cases conn with
    | some c => rfl
    | none =>
      simp only [Dialector.Initialize, New, driverNameSpec, if_true]
      split <;> rfl
  · cases conn with
    | some c =>
      simp only [Dialector.Initialize, New, driverNameSpec, if_neg hdrv]
      rfl
    | none =>
      simp only [Dialector.Initialize, New, driverNameSpec, if_neg hdrv]
      split <;> rfl

/-- C7: when the configuration supplies a pool handle, `Initialize` makes it the
host handle's pool, calls `sql.Open` not at all and returns no error; when it
supplies none, `Initialize` calls `sql.Open` once, with the configured driver
name (`"firebirdsql"` when that is empty) and the configured data-source
string, and stores what it returned as the host handle's pool. -/
theorem C7_connection_pool (host : Host) (config : Config) (db : DB) :
    (∀ conn, config.Conn = some conn →
      ∃ r, (New config).Initialize host db = .ok r
        ∧ r.db.ConnPool = some conn ∧ r.opened = [] ∧ r.err = none)
    ∧ (config.Conn = none →
      ∃ r, (New config).Initialize host db = .ok r
        ∧ r.opened
            = [(if config.DriverName = "" then "firebirdsql" else config.DriverName, config.DSN)]
        ∧ r.db.ConnPool
            = (host.sqlOpen (if config.DriverName = "" then "firebirdsql" else config.DriverName)
                config.DSN).1) := by
  have key := Initialize_New host config db
  constructor
  · intro conn hconn
    rw [hconn] at key
    exact ⟨_, key, rfl, rfl, rfl⟩
  · intro hconn
    rw [hconn] at key
    refine ⟨_, key, ?_, ?_⟩
    · simp only
      split <;> rfl
    · simp only
      split <;> rfl

/-- For a dialector with a configuration `Initialize` returns, and it returns
an error exactly when no pool handle is supplied and `sql.Open` returns one;
that error is then returned as it is, `sql.Open` has been called once, and the
host's registry of clause builders is as it was before. -/
theorem Initialize_New_error (host : Host) (config : Config) (db : DB) :
    ∃ r, (New config).Initialize host db = .ok r
      ∧ (r.err ≠ none ↔
          config.Conn = none ∧ (host.sqlOpen (driverNameSpec config) config.DSN).2 ≠ none)
      ∧ (r.err ≠ none →
          r.err = (host.sqlOpen (driverNameSpec config) config.DSN).2
          ∧ r.opened = [(driverNameSpec config, config.DSN)]
          ∧ r.db.ClauseBuilders = db.ClauseBuilders) := by
  have key := Initialize_New host config db
  cases hconn : config.Conn with
  | some conn =>
    rw [hconn] at key
    refine ⟨_, key, ?_, ?_⟩
    · simp
    · intro h
      exact absurd rfl h
  | none =>
    rw [hconn] at key
    cases hopen : (host.sqlOpen (driverNameSpec config) config.DSN).2 with
    | some e =>
      simp only [hopen] at key
      refine ⟨_, key, ?_, ?_⟩
      · simp
      · intro _
        exact ⟨rfl, rfl, rfl⟩
    | none =>
      simp only [hopen] at key
      refine ⟨_, key, ?_, ?_⟩
      · simp
      · intro h
        exact absurd rfl h

/-- Without a configuration `Initialize` stops at the read of the driver name. -/
theorem Initialize_nil_config (host : Host) (dialector : Dialector) (db : DB)
    (h : dialector.Config = none) :
    dialector.Initialize host db = .error .nilPointerDereference := by
  cases dialector
  simp only at h
  subst h
  rfl

/-- C8 fails as stated: on a dialector whose `*Config` is `nil`, with a host
whose `sql.Open` never returns an error, `Initialize` does not return at all:
it dereferences the `nil` pointer when it reads the driver name, though no
open has failed. -/
theorem C8_nil_config_counterexample :
    (Dialector.mk none).Initialize openingHost freshDB = .error .nilPointerDereference
    ∧ (∀ r : InitResult, (Dialector.mk none).Initialize openingHost freshDB ≠ .ok r)
    ∧ ∀ driverName dsn : String, (openingHost.sqlOpen driverName dsn).2 = none := by
  refine ⟨rfl, fun r hr => ?_, fun _ _ => rfl⟩
  have h : (Dialector.mk none).Initialize openingHost freshDB
      = .error .nilPointerDereference := rfl
  rw [h] at hr
  exact Except.noConfusion hr

/-- C8, amended, for every dialector: with a configuration `Initialize` returns,
and it returns an error exactly when no pool handle is supplied and
`sql.Open` returns one; that error is then returned as it is, `sql.Open` has
been called once, and the host's registry of clause builders is as it was
before. Without a configuration `Initialize` does not return (it reads the
driver name through the `nil` pointer). So `Initialize` returns without error
exactly when the configuration is set and either supplies a pool handle or
`sql.Open` returns no error. -/
theorem C8_initialize_error (host : Host) (dialector : Dialector) (db : DB) :
    (∀ config : Config, dialector.Config = some config →
      ∃ r, dialector.Initialize host db = .ok r
        ∧ (r.err ≠ none ↔
            config.Conn = none ∧ (host.sqlOpen (driverNameSpec config) config.DSN).2 ≠ none)
        ∧ (r.err ≠ none →
            r.err = (host.sqlOpen (driverNameSpec config) config.DSN).2
            ∧ r.opened = [(driverNameSpec config, config.DSN)]
            ∧ r.db.ClauseBuilders = db.ClauseBuilders))
    ∧ (dialector.Config = none →
        dialector.Initialize host db = .error .nilPointerDereference)
    ∧ ((∃ r, dialector.Initialize host db = .ok r ∧ r.err = none) ↔
        ∃ config : Config, dialector.Config = some config
          ∧ (config.Conn ≠ none
              ∨ (host.sqlOpen (driverNameSpec config) config.DSN).2 = none)) := by
  have hsome : ∀ config : Config, dialector.Config = some config →
      dialector = New config := by
    intro config hc
    cases dialector
    simp only at hc
    rw [hc]
    rfl
  refine ⟨?_, Initialize_nil_config host dialector db, ?_⟩
  · intro config hc
    rw [hsome config hc]
    exact Initialize_New_error host config db
  · constructor
    · rintro ⟨r, hr, herr⟩
      cases hcfg : dialector.Config with
      | none =>
        rw [Initialize_nil_config host dialector db hcfg] at hr
        exact Except.noConfusion hr
      | some config =>
        refine ⟨config, rfl, ?_⟩
        rw [hsome config hcfg] at hr
        obtain ⟨r', hr', hiff, _⟩ := Initialize_New_error host config db
        rw [hr] at hr'
        have hrr : r = r' := Except.ok.inj hr'
        subst hrr
        by_contra hcon
        have hboth : config.Conn = none
            ∧ (host.sqlOpen (driverNameSpec config) config.DSN).2 ≠ none := by
          constructor
          · by_contra hne
            exact hcon (Or.inl hne)
          · intro hnone
            exact hcon (Or.inr hnone)
        exact hiff.mpr hboth herr
    · rintro ⟨config, hc, hok⟩
      rw [hsome config hc]
      obtain ⟨r, hr, hiff, _⟩ := Initialize_New_error host config db
      refine ⟨r, hr, ?_⟩
      by_contra herr
      obtain ⟨hconn, hopen⟩ := hiff.mp herr
      rcases hok with h | h
      · exact h hconn
      · exact hopen h

/-- C9: `ClauseBuilders` has the single key `"LIMIT"`, and after an `Initialize`
that returned no error the host's registry holds under `"LIMIT"` the renderer
of `ClauseBuilders`, and under every other clause name what it held before. -/
theorem C9_registry_after_initialize (host : Host) (config : Config) (db : DB)
    (r : InitResult) (hInit : (New config).Initialize host db = .ok r)
    (hOk : r.err = none) :
    (New config).ClauseBuilders.map Prod.fst = ["LIMIT"]
    ∧ r.db.ClauseBuilders.lookup "LIMIT" = (New config).ClauseBuilders.lookup "LIMIT"
    ∧ r.db.ClauseBuilders.lookup "LIMIT" = some limitClauseBuilder
    ∧ ∀ k : String, k ≠ "LIMIT" → r.db.ClauseBuilders.lookup k = db.ClauseBuilders.lookup k := by
  have key := Initialize_New host config db
  rw [hInit] at key
  have hr := Except.ok.inj key
  have hcb : r.db.ClauseBuilders = mapSet db.ClauseBuilders "LIMIT" limitClauseBuilder := by
    cases hconn : config.Conn with
    | some conn =>
      rw [hconn] at hr
      rw [hr]
    | none =>
      rw [hconn] at hr
      cases hopen : (host.sqlOpen (driverNameSpec config) config.DSN).2 with
      | some e =>
        simp only [hopen] at hr
        rw [hr] at hOk
        exact absurd hOk (by simp)
      | none =>
        simp only [hopen] at hr
        rw [hr]
  refine ⟨rfl, ?_, ?_, ?_⟩
  · rw [hcb, lookup_mapSet_self]
    rfl
  · rw [hcb, lookup_mapSet_self]
  · intro k hk
    rw [hcb, lookup_mapSet_ne _ _ _ _ hk]

/-- C9 on a concrete run: a registry that holds an `"ORDER BY"` builder and an
older `"LIMIT"` builder keeps the first and gets the dialect's renderer under
`"LIMIT"`. -/
theorem C9_registry_after_initialize_witness :
    (mapSet [("ORDER BY", fun _ b => b), ("LIMIT", fun _ b => b ++ "LIMIT")] "LIMIT"
        limitClauseBuilder).lookup "LIMIT" = some limitClauseBuilder
    ∧ ∀ k : String, k ≠ "LIMIT" →
        (mapSet [("ORDER BY", fun _ b => b), ("LIMIT", fun _ b => b ++ "LIMIT")] "LIMIT"
          limitClauseBuilder).lookup k
        = List.lookup k
            [("ORDER BY", (fun _ b => b : ClauseBuilder)), ("LIMIT", fun _ b => b ++ "LIMIT")] :=
  have h := C9_registry_after_initialize openingHost ⟨"", "db.fdb", 0, none⟩
    { ConnPool := none, Callbacks := [],
      ClauseBuilders := [("ORDER BY", fun _ b => b), ("LIMIT", fun _ b => b ++ "LIMIT")] }
    _ rfl rfl
  ⟨h.2.2.1, h.2.2.2⟩

/-- C10 fails as stated: `Initialize` on the dialector of `Open "db.fdb"`, whose
configuration has the empty driver name, returns with the driver name of that
configuration set to `"firebirdsql"`. -/
theorem C10_config_changed_counterexample :
    (Open "db.fdb").Config = some ⟨"", "db.fdb", 0, none⟩
    ∧ ∃ r, (Open "db.fdb").Initialize openingHost freshDB = .ok r
        ∧ r.config = ⟨"firebirdsql", "db.fdb", 0, none⟩
        ∧ r.config.DriverName ≠ "" :=
  ⟨rfl, _, rfl, rfl, by decide⟩

/-- C10, amended: `Initialize` leaves the data-source string, the default string
size and the pool handle of the dialector's configuration as they were, and
the driver name as it was when that is not empty; an empty driver name is
replaced by `"firebirdsql"` (so it is for every dialector made by `Open`). -/
theorem C10_config_after_initialize (host : Host) (config : Config) (db : DB) :
    (∃ r, (New config).Initialize host db = .ok r
      ∧ r.config.DSN = config.DSN
      ∧ r.config.DefaultStringSize = config.DefaultStringSize
      ∧ r.config.Conn = config.Conn
      ∧ (config.DriverName ≠ "" → r.config.DriverName = config.DriverName)
      ∧ (config.DriverName = "" → r.config.DriverName = "firebirdsql"))
    ∧ ∀ dsn : String, ∃ r, (Open dsn).Initialize host db = .ok r
        ∧ r.config = ⟨"firebirdsql", dsn, 0, none⟩ := by
  have hcfg : ∀ c : Config, ∃ r, (New c).Initialize host db = .ok r
      ∧ r.config = { c with DriverName := driverNameSpec c } := by
    intro c
    have key := Initialize_New host c db
    refine ⟨_, key, ?_⟩
    cases hconn : c.Conn with
    | some conn => rfl
    | none =>
      simp only
      cases (host.sqlOpen (driverNameSpec c) c.DSN).2 <;> rfl
  constructor
  · obtain ⟨r, hr, hc⟩ := hcfg config
    refine ⟨r, hr, ?_, ?_, ?_, ?_, ?_⟩
    · rw [hc]
    · rw [hc]
    · rw [hc]
    · intro h
      rw [hc]
      simp [driverNameSpec, h]
    · intro h
      rw [hc]
      simp [driverNameSpec, h]
  · intro dsn
    obtain ⟨r, hr, hc⟩ := hcfg ⟨"", dsn, 0, none⟩
    exact ⟨r, hr, hc⟩

/-! ## Type mapper: configuration, totality and range -/

/-- Outside the string branch `DataTypeOf` does not read the dialector at all. -/
theorem DataTypeOf_not_string (d d' : Dialector) (field : Field)
    (h : field.DataType ≠ schemaString) : d.DataTypeOf field = d'.DataTypeOf field := by
  simp only [Dialector.DataTypeOf, if_neg h]

/-- Outside the string branch `DataTypeOf` returns under every dialector. -/
theorem DataTypeOf_not_string_ok (d : Dialector) (field : Field)
    (h : field.DataType ≠ schemaString) : ∃ s, d.DataTypeOf field = .ok s := by
  simp only [Dialector.DataTypeOf, if_neg h]
  split_ifs <;> exact ⟨_, rfl⟩

/-- A string column that does not take the configured default (its declared
size is not 0, or it is neither a primary key nor indexed) is rendered from
its declared size, under every dialector. -/
theorem DataTypeOf_string_declared (d : Dialector) (field : Field)
    (hString : field.DataType = schemaString)
    (h : ¬ (field.Size = 0 ∧ (field.PrimaryKey = true ∨ hasIndexSpec field))) :
    d.DataTypeOf field = .ok (varcharSpec field.Size) := by
  obtain ⟨dt, size, pk, ai, ts⟩ := field
  simp only at hString
  subst hString
  have e1 : ¬ schemaString = schemaBool := by decide
  have e2 : ¬ (schemaString = schemaInt ∨ schemaString = schemaUint) := by decide
  have e3 : ¬ schemaString = schemaFloat := by decide
  simp only [hasIndexSpec] at h
  simp only [Dialector.DataTypeOf, varcharSpec, if_neg e1, if_neg e2, if_neg e3, if_true]
  by_cases h0 : size = 0
  · subst h0
    have hflags : ¬ (pk = true ∨ mapGet ts "INDEX" ≠ "" ∨ mapGet ts "UNIQUE" ≠ "") :=
      fun hf => h ⟨rfl, hf⟩
    have hpk : pk = false := by
      cases pk
      · rfl
      · exact absurd (Or.inl rfl) hflags
    have hi : mapGet ts "INDEX" = "" := by
      by_contra hne
      exact hflags (Or.inr (Or.inl hne))
    have hu : mapGet ts "UNIQUE" = "" := by
      by_contra hne
      exact hflags (Or.inr (Or.inr hne))
    simp [hpk, hi, hu, bind, Except.bind, pure, Except.pure]
  · by_cases hd : size > 0 <;>
    by_cases hd2 : size ≤ 4000 <;>
    simp [h0, hd, hd2, bind, Except.bind, pure, Except.pure]

/-- C11: `DataTypeOf` reads of the configuration only the default string size:
two configurations with the same default string size give the same result
for every column, whatever their driver name, data-source string and pool
handle; and a column whose logical type is not string gives the same result
under any two configurations. -/
theorem C11_config_only_default_size (c1 c2 : Config) (field : Field) :
    (c1.DefaultStringSize = c2.DefaultStringSize →
      (New c1).DataTypeOf field = (New c2).DataTypeOf field)
    ∧ (field.DataType ≠ schemaString →
      (New c1).DataTypeOf field = (New c2).DataTypeOf field) := by
  refine ⟨fun hsize => ?_, fun h => DataTypeOf_not_string _ _ field h⟩
  by_cases hs : field.DataType = schemaString
  · rw [DataTypeOf_string c1 field hs, DataTypeOf_string c2 field hs, hsize]
  · exact DataTypeOf_not_string _ _ field hs

/-! ### Decimal rendering determines the number -/

/-- A decimal digit character has its digit as value. -/
theorem digitChar_value (k : Nat) (h : k < 10) : (Nat.digitChar k).toNat - 48 = k := by
  interval_cases k <;> rfl

/-- A decimal digit character is one of `0` to `9`. -/
theorem digitChar_isDigit (k : Nat) (h : k < 10) : (Nat.digitChar k).isDigit = true := by
  interval_cases k <;> rfl

/-- The digits produced for `n` in front of `ds` carry the value `n` into the
fold over `ds`. -/
theorem foldl_toDigitsCore (fuel n : Nat) (ds : List Char) (h : n < fuel) :
    (Nat.toDigitsCore 10 fuel n ds).foldl (fun acc c => 10 * acc + (c.toNat - 48)) 0
      = ds.foldl (fun acc c => 10 * acc + (c.toNat - 48)) n := by
  induction fuel generalizing n ds with
  | zero => exact absurd h (Nat.not_lt_zero n)
  | succ f ih =>
    simp only [Nat.toDigitsCore]
    have hmod : n % 10 < 10 := Nat.mod_lt n (by decide)
    by_cases h0 : n / 10 = 0
    · simp only [h0, if_true, List.foldl_cons, digitChar_value _ hmod]
      congr 1
      omega
    · simp only [h0, if_false]
      have hlt : n / 10 < f := by omega
      rw [ih (n / 10) _ hlt]
      simp only [List.foldl_cons, digitChar_value _ hmod]
      congr 1
      omega

/-- Every character produced for `n` in front of `ds` is a digit or is in `ds`. -/
theorem mem_toDigitsCore (fuel n : Nat) (ds : List Char) :
    ∀ c ∈ Nat.toDigitsCore 10 fuel n ds, c.isDigit = true ∨ c ∈ ds := by
  induction fuel generalizing n ds with
  | zero =>
    intro c hc
    exact Or.inr hc
  | succ f ih =>
    intro c hc
    simp only [Nat.toDigitsCore] at hc
    have hmod : n % 10 < 10 := Nat.mod_lt n (by decide)
    by_cases h0 : n / 10 = 0
    · simp only [h0, if_true] at hc
      rcases List.mem_cons.mp hc with h | h
      · exact Or.inl (h ▸ digitChar_isDigit _ hmod)
      · exact Or.inr h
    · simp only [h0, if_false] at hc
      rcases ih _ _ c hc with h | h
      · exact Or.inl h
      · rcases List.mem_cons.mp h with h | h
        · exact Or.inl (h ▸ digitChar_isDigit _ hmod)
        · exact Or.inr h

/-- The decimal rendering of a natural number has that number as value. -/
theorem decimalValue_repr (n : Nat) : decimalValue (Nat.repr n).data = n := by
  simp only [decimalValue, Nat.repr, Nat.toDigits, List.asString]
  rw [foldl_toDigitsCore _ _ _ (Nat.lt_succ_self n)]
  rfl

/-- The decimal rendering of a natural number consists of digits. -/
theorem isDigit_of_mem_repr (n : Nat) (c : Char) (hc : c ∈ (Nat.repr n).data) :
    c.isDigit = true := by
  simp only [Nat.repr, Nat.toDigits, List.asString] at hc
  rcases mem_toDigitsCore _ _ _ c hc with h | h
  · exact h
  · exact absurd h (List.not_mem_nil c)

/-- Go `strconv.Itoa` is injective: the rendering determines the integer. -/
theorem Itoa_injective (a b : Int) (h : Itoa a = Itoa b) : a = b := by
  have hminus : ¬ (Char.isDigit '-' = true) := by decide
  cases a with
  | ofNat m =>
    cases b with
    | ofNat n =>
      simp only [Itoa] at h
      have hv := congrArg (fun t : String => decimalValue t.data) h
      simp only [decimalValue_repr] at hv
      rw [hv]
    | negSucc n =>
      simp only [Itoa] at h
      have hmem : '-' ∈ (Nat.repr m).data := by
        rw [h]
        simp
      exact absurd (isDigit_of_mem_repr m _ hmem) hminus
  | negSucc m =>
    cases b with
    | ofNat n =>
      simp only [Itoa] at h
      have hmem : '-' ∈ (Nat.repr n).data := by
        rw [← h]
        simp
      exact absurd (isDigit_of_mem_repr n _ hmem) hminus
    | negSucc n =>
      simp only [Itoa] at h
      have hd := congrArg String.data h
      simp only [String.data_append] at hd
      have hr : Nat.repr (m + 1) = Nat.repr (n + 1) := String.ext (List.append_cancel_left hd)
      have hv := congrArg (fun t : String => decimalValue t.data) hr
      simp only [decimalValue_repr] at hv
      have hmn : m = n := by omega
      rw [hmn]

/-- No integer is rendered as `MAX`. -/
theorem Itoa_ne_MAX (k : Int) : Itoa k ≠ "MAX" := by
  intro h
  have hM : ¬ (Char.isDigit 'M' = true) := by decide
  cases k with
  | ofNat n =>
    simp only [Itoa] at h
    have hmem : 'M' ∈ (Nat.repr n).data := by
      rw [h]
      decide
    exact hM (isDigit_of_mem_repr n _ hmem)
  | negSucc n =>
    simp only [Itoa] at h
    have hd := congrArg String.data h
    simp only [String.data_append] at hd
    have hhead := congrArg List.head? hd
    simp at hhead

/-- The text between `varchar(` and `)` is determined by the whole type string. -/
theorem varchar_inner_injective (a b : String)
    (h : "varchar(" ++ a ++ ")" = "varchar(" ++ b ++ ")") : a = b := by
  have hd := congrArg String.data h
  simp only [String.data_append, List.append_assoc] at hd
  exact String.ext (List.append_cancel_right (List.append_cancel_left hd))

/-- C16 fails as stated: under a dialector whose `*Config` is `nil`, a
primary-key string column of declared size 0 makes `DataTypeOf` read the
default string size through the `nil` pointer, so no string is returned. -/
theorem C16_nil_config_counterexample :
    (Dialector.mk none).DataTypeOf ⟨schemaString, 0, true, false, []⟩
        = .error .nilPointerDereference
    ∧ ∀ s : String,
        (Dialector.mk none).DataTypeOf ⟨schemaString, 0, true, false, []⟩ ≠ .ok s := by
  have h : (Dialector.mk none).DataTypeOf ⟨schemaString, 0, true, false, []⟩
      = .error .nilPointerDereference := by decide
  refine ⟨h, fun s hs => ?_⟩
  rw [h] at hs
  exact Except.noConfusion hs

/-- C16, amended: `DataTypeOf` returns a string for every column (any logical
type, any size, negative ones included, any flags, no tag settings) under every
dialector that has a configuration, and under a dialector without one for
every column other than a string column of declared size 0 that is a primary
key or indexed. -/
theorem C16_returns_string (d : Dialector) (field : Field) :
    (∀ c : Config, d.Config = some c → ∃ s, d.DataTypeOf field = .ok s)
    ∧ (¬ (field.DataType = schemaString ∧ field.Size = 0
          ∧ (field.PrimaryKey = true ∨ hasIndexSpec field)) →
        ∃ s, d.DataTypeOf field = .ok s) := by
  constructor
  · intro c hc
    have hd : d = New c := by
      cases d
      simp only at hc
      rw [hc]
      rfl
    by_cases hs : field.DataType = schemaString
    · exact ⟨_, hd ▸ DataTypeOf_string c field hs⟩
    · exact DataTypeOf_not_string_ok d field hs
  · intro h
    by_cases hs : field.DataType = schemaString
    · exact ⟨_, DataTypeOf_string_declared d field hs (fun hh => h ⟨hs, hh.1, hh.2⟩)⟩
    · exact DataTypeOf_not_string_ok d field hs

/-- C18: for a string column under any configuration (negative declared size
and default above 4000 included) the result is `varchar(MAX)` or `varchar(n)`
with `1 <= n <= 4000`; whenever it is the rendering `varchar(k)` of an integer
`k`, that `k` is in the range, so no zero, negative or over-4000 length is
rendered. -/
theorem C18_string_length_range (config : Config) (field : Field)
    (hString : field.DataType = schemaString) :
    ((New config).DataTypeOf field = .ok "varchar(MAX)"
      ∨ ∃ n : Int, 1 ≤ n ∧ n ≤ 4000
          ∧ (New config).DataTypeOf field = .ok ("varchar(" ++ Itoa n ++ ")"))
    ∧ ∀ k : Int, (New config).DataTypeOf field = .ok ("varchar(" ++ Itoa k ++ ")") →
        1 ≤ k ∧ k ≤ 4000 := by
  have key := DataTypeOf_string config field hString
  generalize effectiveSizeSpec field config.DefaultStringSize = eff at key
  by_cases hr : 0 < eff ∧ eff ≤ 4000
  · have hv : varcharSpec eff = "varchar(" ++ Itoa eff ++ ")" := by
      simp only [varcharSpec, if_pos hr]
    rw [hv] at key
    refine ⟨Or.inr ⟨eff, hr.1, hr.2, key⟩, fun k hk => ?_⟩
    rw [key] at hk
    have hke := Itoa_injective _ _ (varchar_inner_injective _ _ (Except.ok.inj hk))
    rw [← hke]
    exact ⟨hr.1, hr.2⟩
  · have hv : varcharSpec eff = "varchar(MAX)" := by
      simp only [varcharSpec, if_neg hr]
    rw [hv] at key
    refine ⟨Or.inl key, fun k hk => ?_⟩
    rw [key] at hk
    have hmax : ("varchar(MAX)" : String) = "varchar(" ++ "MAX" ++ ")" := by decide
    have hk' := Except.ok.inj hk
    rw [hmax] at hk'
    exact absurd (varchar_inner_injective _ _ hk').symm (Itoa_ne_MAX k)

/-- C18 at a concrete column: an indexed string column of declared size 0 under
a configured default of 9000 is a `varchar(MAX)`, not a `varchar(9000)`. -/
theorem C18_string_length_range_witness :
    (New ⟨"", "db.fdb", 9000, none⟩).DataTypeOf ⟨schemaString, 0, false, false, [("INDEX", "i")]⟩
        = .ok "varchar(MAX)"
    ∧ (New ⟨"", "db.fdb", 9000, none⟩).DataTypeOf
          ⟨schemaString, 0, false, false, [("INDEX", "i")]⟩
        ≠ .ok ("varchar(" ++ Itoa 9000 ++ ")") :=
  have h := C18_string_length_range ⟨"", "db.fdb", 9000, none⟩
    ⟨schemaString, 0, false, false, [("INDEX", "i")]⟩ rfl
  ⟨by decide, fun hk => absurd (h.2 9000 hk).2 (by decide)⟩

/-! ## Migrator, placeholder, default value, name -/

/-- C12: for every host handle and every dialector (whatever its configuration)
`Migrator` returns the wrapper around the host's generic migrator whose
configuration holds the given handle, this dialector as its dialect, and the
create-index-after-create-table flag set to true, and nothing else. -/
theorem C12_migrator_config (dialector : Dialector) (db : DB) :
    (dialector.Migrator db).Migrator.Config.DB = db
    ∧ (dialector.Migrator db).Migrator.Config.Dialector = dialector
    ∧ (dialector.Migrator db).Migrator.Config.CreateIndexAfterCreateTable = true
    ∧ dialector.Migrator db
        = Migrator.mk (GenericMigrator.mk (MigratorConfig.mk true db dialector)) :=
  ⟨rfl, rfl, rfl, rfl⟩

/-- C13: whatever the writer holds, whatever the statement has bound and
whatever the value, `BindVarTo` appends the single character `?`; so `n`
successive calls append `n` question marks and nothing else. -/
theorem C13_bind_var_question_mark (dialector : Dialector) (writer : Builder) :
    (∀ (stmtVars : List Value) (v : Value),
      dialector.BindVarTo writer stmtVars v = writer ++ "?")
    ∧ ∀ calls : List (List Value × Value),
        bindVarsTo dialector writer calls
          = writer ++ String.mk (List.replicate calls.length '?') := by
  constructor
  · intro stmtVars v
    rfl
  · intro calls
    induction calls generalizing writer with
    | nil =>
      apply String.ext
      simp [bindVarsTo]
    | cons call rest ih =>
      have hstep : bindVarsTo dialector writer (call :: rest)
          = bindVarsTo dialector (dialector.BindVarTo writer call.1 call.2) rest := rfl
      rw [hstep, ih]
      apply String.ext
      simp [Dialector.BindVarTo, Builder.WriteByte, List.replicate_succ]

/-- C14: for every column and every dialector `DefaultValueOf` returns the raw
SQL expression whose text is `NULL`, with no bound values. -/
theorem C14_default_value_null (dialector : Dialector) (field : Field) :
    ∃ e : Expr, dialector.DefaultValueOf field = .expr e
      ∧ e.SQL = "NULL" ∧ e.Vars = [] ∧ e.WithoutParentheses = false :=
  ⟨_, rfl, rfl, rfl, rfl⟩

/-- C15: `Name` is `"firebird"` for every dialector: with or without a
configuration, built by `Open` or by `New`. -/
theorem C15_name_firebird :
    (∀ dialector : Dialector, dialector.Name = "firebird")
    ∧ (∀ dsn : String, (Open dsn).Name = "firebird")
    ∧ (∀ config : Config, (New config).Name = "firebird") :=
  ⟨fun _ => rfl, fun _ => rfl, fun _ => rfl⟩

/-! ## Pagination clause: the rows selected -/

/-- The fragment written by the `"LIMIT"` renderer is the text of `ROWS count`
when the offset is not positive and of `ROWS count TO offset` when it is. -/
theorem limitClauseBuilder_text (name : String) (count offset : Int) :
    limitClauseBuilder ⟨name, some (.limit ⟨count, offset⟩)⟩ ""
      = (if offset > 0 then RowsClause.rowsTo count offset else RowsClause.rows count).text := by
  by_cases h : offset > 0
  · simp only [limitClauseBuilder, Builder.WriteString, if_pos h, RowsClause.text,
      String.empty_append]
  · simp only [limitClauseBuilder, Builder.WriteString, if_neg h, RowsClause.text,
      String.empty_append]

/-- Without an offset the rendered `ROWS n` selects what the host asks for. -/
theorem rows_select_eq_limitOffsetSpec {α : Type} (table : List α) (n : Int) :
    (RowsClause.rows n).select table = limitOffsetSpec table n 0 := by
  simp [RowsClause.select, limitOffsetSpec]

/-- C17, at limit 10 and offset 20 on a result of 30 rows: the renderer writes
`ROWS 10 TO 20`, which in Firebird selects the eleven rows 10 to 20, while the
host's pair asks for the ten rows 21 to 30. -/
theorem C17_rows_to_selects_other_rows :
    limitClauseBuilder ⟨"LIMIT", some (.limit ⟨10, 20⟩)⟩ "" = "ROWS 10 TO 20"
    ∧ (RowsClause.rowsTo 10 20).text = "ROWS 10 TO 20"
    ∧ (RowsClause.rowsTo 10 20).select (List.range' 1 30)
        = [10, 11, 12, 13, 14, 15, 16, 17, 18, 19, 20]
    ∧ limitOffsetSpec (List.range' 1 30) 10 20 = [21, 22, 23, 24, 25, 26, 27, 28, 29, 30]
    ∧ (RowsClause.rowsTo 10 20).select (List.range' 1 30)
        ≠ limitOffsetSpec (List.range' 1 30) 10 20 := by
  refine ⟨by decide, by decide, by decide, by decide, by decide⟩

/-! ## Identifier quoting is injective -/

/-- A dot-free segment followed by a dot is split off as the first segment. -/
theorem splitDotChars_append_dot (seg rest : List Char) (h : '.' ∉ seg) :
    splitDotChars (seg ++ '.' :: rest) = seg :: splitDotChars rest := by
  induction seg with
  | nil => simp [splitDotChars]
  | cons c cs ih =>
    have hc : ¬ c = '.' := fun e => h (by simp [e])
    have hcs : '.' ∉ cs := fun m => h (List.mem_cons_of_mem _ m)
    simp [splitDotChars, hc, ih hcs]

/-- Joining with `.` peels off the first of at least two segments. -/
theorem intercalate_cons_cons (a b : String) (r : List String) :
    ".".intercalate (a :: b :: r) = a ++ "." ++ ".".intercalate (b :: r) := by
  simp only [String.intercalate, String.intercalate.go]
  rw [String.append_assoc, intercalate_go_append, String.append_assoc]
  congr 1
  rw [← intercalate_go_append]

/-- Splitting undoes the joining of dot-free segments. -/
theorem splitDot_intercalate (segs : List String) (hne : segs ≠ [])
    (hdot : ∀ seg ∈ segs, '.' ∉ seg.data) : splitDot (".".intercalate segs) = segs := by
  induction segs with
  | nil => exact absurd rfl hne
  | cons a rest ih =>
    cases rest with
    | nil =>
      have ha := hdot a (List.mem_cons_self _ _)
      simp [String.intercalate, String.intercalate.go, splitDot,
        splitDotChars_of_not_mem a.data ha]
    | cons b r =>
      have ha := hdot a (List.mem_cons_self _ _)
      have ih' := ih (List.cons_ne_nil b r) (fun seg hseg => hdot seg (List.mem_cons_of_mem _ hseg))
      rw [intercalate_cons_cons]
      simp only [splitDot] at ih' ⊢
      have hdata : (a ++ "." ++ ".".intercalate (b :: r)).data
          = a.data ++ '.' :: (".".intercalate (b :: r)).data := by
        simp only [String.data_append, List.append_assoc]
        rfl
      rw [hdata, splitDotChars_append_dot _ _ ha, List.map_cons, ih']

/-- Quoting a segment is injective. -/
theorem quoteSegmentSpec_injective (a b : String)
    (h : quoteSegmentSpec a = quoteSegmentSpec b) : a = b := by
  have hd := congrArg String.data h
  simp only [quoteSegmentSpec, String.data_append, List.append_assoc] at hd
  exact String.ext (List.append_cancel_right (List.append_cancel_left hd))

/-- The spec's quoted identifier determines the identifier. -/
theorem quoteSpec_injective (s1 s2 : String) (h : quoteSpec s1 = quoteSpec s2) : s1 = s2 := by
  have hq : ∀ s : String, splitDot (quoteSpec s) = (splitDot s).map quoteSegmentSpec := by
    intro s
    apply splitDot_intercalate
    · simp [splitDot, splitDotChars_ne_nil]
    · intro seg hseg
      simp only [List.mem_map, splitDot] at hseg
      obtain ⟨t, ⟨l, hl, rfl⟩, rfl⟩ := hseg
      have hl' := splitDotChars_no_dot s.data l hl
      simp only [quoteSegmentSpec, String.data_append, List.mem_append, not_or]
      exact ⟨⟨by decide, hl'⟩, by decide⟩
  have hmap : (splitDot s1).map quoteSegmentSpec = (splitDot s2).map quoteSegmentSpec := by
    rw [← hq s1, ← hq s2, h]
  have hsplit : splitDot s1 = splitDot s2 :=
    List.map_injective_iff.mpr (fun a b hab => quoteSegmentSpec_injective a b hab) hmap
  rw [← intercalate_splitDot s1, ← intercalate_splitDot s2, hsplit]

/-- C19: `QuoteTo` is injective: for two different identifiers (with or without
dots or embedded double quotes) the writer's content after quoting the one
differs from its content after quoting the other, and so does the text
appended, also between different dialectors and different writers. -/
theorem C19_quote_injective (s1 s2 : String) (hne : s1 ≠ s2) :
    (∀ (d : Dialector) (w : Builder), d.QuoteTo w s1 ≠ d.QuoteTo w s2)
    ∧ ∀ (d1 d2 : Dialector) (w1 w2 : Builder) (t1 t2 : String),
        d1.QuoteTo w1 s1 = w1 ++ t1 → d2.QuoteTo w2 s2 = w2 ++ t2 → t1 ≠ t2 := by
  have cancel : ∀ w a b : String, w ++ a = w ++ b → a = b := by
    intro w a b hab
    have hd := congrArg String.data hab
    simp only [String.data_append] at hd
    exact String.ext (List.append_cancel_left hd)
  constructor
  · intro d w heq
    rw [QuoteTo_eq_quoteSpec, QuoteTo_eq_quoteSpec] at heq
    exact hne (quoteSpec_injective s1 s2 (cancel w _ _ heq))
  · intro d1 d2 w1 w2 t1 t2 h1 h2 ht
    rw [QuoteTo_eq_quoteSpec] at h1 h2
    have e1 := cancel w1 _ _ h1
    have e2 := cancel w2 _ _ h2
    exact hne (quoteSpec_injective s1 s2 (by rw [e1, e2, ht]))

/-- C19 at two identifiers that differ only in where the quote and the dot
stand: `a".b` and `a."b` are written as different texts. -/
theorem C19_quote_injective_witness :
    (New ⟨"", "db.fdb", 0, none⟩).QuoteTo "" "a\".b"
      ≠ (New ⟨"", "db.fdb", 0, none⟩).QuoteTo "" "a.\"b" :=
  (C19_quote_injective "a\".b" "a.\"b" (by decide)).1 _ _

end Firebird
